import Mathlib

/-!
Shallow embedding of the in-memory financial ledger of
`internal/tools/mockdb.go` (types from `internal/tools/database.go`).

Modelling conventions:
* Go `int64` values (`Coins`, `Version`, `Amount`) are carried as `Int`,
  and every arithmetic operation the source performs on them (`+`, `-`,
  `++`) is wrapped with `wrap64`, the two's-complement reduction into
  `[-2^63, 2^63)`, so overflow behaves exactly as Go defines it.
  Comparisons (`≤`, `<`, `>`) act on the stored values directly, as in
  Go.  Stores produced by Go always hold in-range values; theorems that
  need this use the explicit `validStore` / `int64Range` hypotheses.
* The Go map `mockCoinDetails` is modelled as an association list with
  map semantics: `lookupAcct` finds the first binding of a key and
  `updateAcct` replaces that binding in place.
* `generateTransactionID` draws from a cryptographically random source
  and `time.Now()` is a wall clock; both are opaque environment inputs
  irrelevant to every claim, so `ID` is embedded as `""` and
  `Timestamp` as `0`.
* A `context.Context` is relevant to the code only through whether its
  `Done` channel is already closed when the `select` at the top of
  `TransferUserCoinsWithContext` runs; it is embedded as a `Bool`
  (`ctxDone`).  `context.Background()` is never done, hence `false`.
* The error values produced with `fmt.Errorf` / `ctx.Err()` are
  embedded as the enumeration `TransferError`.
-/

namespace GoApi

/-- Two's-complement wraparound of Go `int64` arithmetic: reduces an
integer into `[-2^63, 2^63)` the way an overflowing Go `int64`
addition or subtraction does. -/
def wrap64 (x : Int) : Int := (x + 2^63) % 2^64 - 2^63

/-- The value range of a Go `int64`. -/
abbrev int64Range (x : Int) : Prop := -(2^63) ≤ x ∧ x < 2^63

/-- Record `CoinDetails` from `database.go`: balance record with optimistic-locking
version counter. -/
structure CoinDetails where
  Coins : Int
  Username : String
  Version : Int
  deriving Repr, DecidableEq

/-- Record `TransactionLog` from `database.go`.  The Go field `Type` is spelled
`Typ` because `Type` is a Lean keyword; `ID`/`Timestamp` are opaque
environment inputs (see module comment). -/
structure TransactionLog where
  ID : String
  Typ : String
  From : String
  To : String
  Amount : Int
  Timestamp : Nat
  Status : String
  deriving Repr, DecidableEq

/-- The account map `mockCoinDetails`, an association list with unique-key
map semantics. -/
abbrev Store := List (String × CoinDetails)

/-- Go map read `mockCoinDetails[username]`. -/
def lookupAcct (s : Store) (u : String) : Option CoinDetails :=
  match s with
  | [] => none
  | p :: rest => if p.1 = u then some p.2 else lookupAcct rest u

/-- Go map write `mockCoinDetails[username] = clientData`: replaces the
binding of an existing key (all mutating operations write only to keys
they just read, so no-insert semantics is faithful). -/
def updateAcct (s : Store) (u : String) (c : CoinDetails) : Store :=
  match s with
  | [] => []
  | p :: rest => if p.1 = u then (u, c) :: rest else p :: updateAcct rest u c

/-- The mutable state of `mockDB` (global maps included): audit trail,
account map, health flags, metrics.  Locks serialize the operations and
are not part of the sequential state. -/
structure MockDB where
  transactionLogs : List TransactionLog
  coins : Store
  healthStatus : List (String × Bool)
  operationCount : Int
  startTime : Nat
  deriving Repr, DecidableEq

/-- Operation `SetupDatabase`, parameterized by the initial contents of the global
`mockCoinDetails` map and the current clock value (`time.Now()`);
`operationCount` starts at the Go zero value. -/
def SetupDatabase (coins0 : Store) (now : Nat) : MockDB :=
  { transactionLogs := []
    coins := coins0
    healthStatus := [("database", true), ("audit_log", true), ("performance", true)]
    operationCount := 0
    startTime := now }

/-- The append-then-truncate step of `logTransaction`: append one record,
then keep only the last 1000 records if the bound is exceeded. -/
def pushLog (logs : List TransactionLog) (rec : TransactionLog) : List TransactionLog :=
  let l := logs ++ [rec]
  if l.length > 1000 then l.drop (l.length - 1000) else l

/-- Operation `logTransaction`: builds the audit record and appends it under the
log lock, truncating to the last 1000 records. -/
def logTransaction (d : MockDB) (txType fromU toU : String) (amount : Int)
    (status : String) : MockDB :=
  let txLog : TransactionLog :=
    { ID := "", Typ := txType, From := fromU, To := toU,
      Amount := amount, Timestamp := 0, Status := status }
  { d with transactionLogs := pushLog d.transactionLogs txLog }

/-- Operation `GetUserCoins`: read under the shared lock; callers receive a copy. -/
def GetUserCoins (d : MockDB) (username : String) : Option CoinDetails :=
  lookupAcct d.coins username

/-- Operation `AddUserCoins`: deposit.  Validates the amount before the lock,
then looks the user up, increments `Coins` and `Version`, writes back,
and logs the outcome. -/
def AddUserCoins (d : MockDB) (username : String) (amount : Int) :
    MockDB × Option CoinDetails :=
  if amount ≤ 0 then
    (logTransaction d "DEPOSIT" "" username amount "FAILED_INVALID_AMOUNT", none)
  else
    match lookupAcct d.coins username with
    | none =>
        (logTransaction d "DEPOSIT" "" username amount "FAILED_USER_NOT_FOUND", none)
    | some clientData =>
        let clientData' : CoinDetails :=
          { clientData with
              Coins := wrap64 (clientData.Coins + amount)
              Version := wrap64 (clientData.Version + 1) }
        let d' := { d with coins := updateAcct d.coins username clientData' }
        (logTransaction d' "DEPOSIT" "" username amount "SUCCESS", some clientData')

/-- Operation `WithdrawUserCoins`: withdrawal.  Validates the amount, looks the
user up, rejects `amount > Coins`, decrements `Coins`, bumps `Version`,
writes back, and logs the outcome. -/
def WithdrawUserCoins (d : MockDB) (username : String) (amount : Int) :
    MockDB × Option CoinDetails :=
  if amount ≤ 0 then
    (logTransaction d "WITHDRAWAL" username "" amount "FAILED_INVALID_AMOUNT", none)
  else
    match lookupAcct d.coins username with
    | none =>
        (logTransaction d "WITHDRAWAL" username "" amount "FAILED_USER_NOT_FOUND", none)
    | some clientData =>
        if amount > clientData.Coins then
          (logTransaction d "WITHDRAWAL" username "" amount "FAILED_INSUFFICIENT_FUNDS", none)
        else
          let clientData' : CoinDetails :=
            { clientData with
                Coins := wrap64 (clientData.Coins - amount)
                Version := wrap64 (clientData.Version + 1) }
          let d' := { d with coins := updateAcct d.coins username clientData' }
          (logTransaction d' "WITHDRAWAL" username "" amount "SUCCESS", some clientData')

/-- The error causes of `TransferUserCoinsWithContext`
(`ctx.Err()` and the four `fmt.Errorf` messages). -/
inductive TransferError where
  | contextCancelled
  | invalidAmount
  | selfTransfer
  | senderNotFound
  | recipientNotFound
  | insufficientFunds
  deriving Repr, DecidableEq

deriving instance DecidableEq for Except

/-- The audit status string written for each failure cause of a transfer. -/
def transferFailStatus : TransferError → String
  | .contextCancelled => "FAILED_CONTEXT_CANCELLED"
  | .invalidAmount => "FAILED_INVALID_AMOUNT"
  | .selfTransfer => "FAILED_SELF_TRANSFER"
  | .senderNotFound => "FAILED_FROM_USER_NOT_FOUND"
  | .recipientNotFound => "FAILED_TO_USER_NOT_FOUND"
  | .insufficientFunds => "FAILED_INSUFFICIENT_FUNDS"

/-- Operation `TransferUserCoinsWithContext`: checks cancellation once at entry,
validates amount and distinct endpoints, reads both accounts, rejects
insufficient funds, then performs the debit and the credit (each with a
version bump) under one lock acquisition, and logs the outcome. -/
def TransferUserCoinsWithContext (d : MockDB) (ctxDone : Bool)
    (fromU toU : String) (amount : Int) :
    MockDB × Except TransferError (CoinDetails × CoinDetails) :=
  if ctxDone then
    (logTransaction d "TRANSFER" fromU toU amount "FAILED_CONTEXT_CANCELLED",
     Except.error .contextCancelled)
  else if amount ≤ 0 then
    (logTransaction d "TRANSFER" fromU toU amount "FAILED_INVALID_AMOUNT",
     Except.error .invalidAmount)
  else if fromU = toU then
    (logTransaction d "TRANSFER" fromU toU amount "FAILED_SELF_TRANSFER",
     Except.error .selfTransfer)
  else
    match lookupAcct d.coins fromU with
    | none =>
        (logTransaction d "TRANSFER" fromU toU amount "FAILED_FROM_USER_NOT_FOUND",
         Except.error .senderNotFound)
    | some fromData =>
        match lookupAcct d.coins toU with
        | none =>
            (logTransaction d "TRANSFER" fromU toU amount "FAILED_TO_USER_NOT_FOUND",
             Except.error .recipientNotFound)
        | some toData =>
            if fromData.Coins < amount then
              (logTransaction d "TRANSFER" fromU toU amount "FAILED_INSUFFICIENT_FUNDS",
               Except.error .insufficientFunds)
            else
              let fromData' : CoinDetails :=
                { fromData with
                    Coins := wrap64 (fromData.Coins - amount)
                    Version := wrap64 (fromData.Version + 1) }
              let s1 := updateAcct d.coins fromU fromData'
              let toData' : CoinDetails :=
                { toData with
                    Coins := wrap64 (toData.Coins + amount)
                    Version := wrap64 (toData.Version + 1) }
              let d' := { d with coins := updateAcct s1 toU toData' }
              (logTransaction d' "TRANSFER" fromU toU amount "SUCCESS",
               Except.ok (fromData', toData'))

/-- Operation `TransferUserCoins`: delegates to the context variant with
`context.Background()` (never done) and collapses every error to the
`(nil, nil)` pair. -/
def TransferUserCoins (d : MockDB) (fromU toU : String) (amount : Int) :
    MockDB × (Option CoinDetails × Option CoinDetails) :=
  match TransferUserCoinsWithContext d false fromU toU amount with
  | (d', Except.error _) => (d', (none, none))
  | (d', Except.ok (f, t)) => (d', (some f, some t))

/-- The result map of `GetSystemHealth`, as a structure (`now` is the
`time.Now()` clock reading). -/
structure HealthSnapshot where
  status : String
  uptimeSeconds : Nat
  operationCount : Int
  components : List (String × Bool)
  lastCheck : Nat
  version : String
  deriving Repr, DecidableEq

/-- Operation `GetSystemHealth`: snapshot of status, uptime, metrics and component
flags. -/
def GetSystemHealth (d : MockDB) (now : Nat) : HealthSnapshot :=
  { status := "healthy"
    uptimeSeconds := now - d.startTime
    operationCount := d.operationCount
    components := d.healthStatus
    lastCheck := now
    version := "1.0.0" }

/-- The initial contents of the global `mockCoinDetails` map. -/
def initialCoinDetails : Store :=
  [("aaron", { Coins := 1000, Username := "aaron", Version := 1 }),
   ("bryan", { Coins := 1000, Username := "bryan", Version := 1 })]

/-- A freshly initialized database over the initial map, clock at 0. -/
def initialDB : MockDB := SetupDatabase initialCoinDetails 0

/-- One ledger-mutating request (the four balance-mutating entry points). -/
inductive Op where
  | deposit (username : String) (amount : Int)
  | withdraw (username : String) (amount : Int)
  | transfer (fromU toU : String) (amount : Int)
  | transferCtx (ctxDone : Bool) (fromU toU : String) (amount : Int)
  deriving Repr, DecidableEq

/-- State after one request (the lock serializes requests, so a sequence
of calls is a sequence of state transitions). -/
def applyOp (d : MockDB) : Op → MockDB
  | .deposit u a => (AddUserCoins d u a).1
  | .withdraw u a => (WithdrawUserCoins d u a).1
  | .transfer f t a => (TransferUserCoins d f t a).1
  | .transferCtx c f t a => (TransferUserCoinsWithContext d c f t a).1

/-- Contribution of one request to the global coin sum as the claim
accounts it: `+amount` for a successful deposit, `-amount` for a
successful withdrawal, `0` for transfers and for failed operations. -/
def opDelta (d : MockDB) : Op → Int
  | .deposit u a => if (AddUserCoins d u a).2.isSome then a else 0
  | .withdraw u a => if (WithdrawUserCoins d u a).2.isSome then -a else 0
  | .transfer _ _ _ => 0
  | .transferCtx _ _ _ _ => 0

/-- Run a sequence of requests. -/
def run (d : MockDB) : List Op → MockDB
  | [] => d
  | op :: ops => run (applyOp d op) ops

/-- Accounted sum change of a sequence of requests. -/
def runDelta (d : MockDB) : List Op → Int
  | [] => 0
  | op :: ops => opDelta d op + runDelta (applyOp d op) ops

/-- Sum of `Coins` over all accounts of the store. -/
def totalCoins (s : Store) : Int := (s.map (fun p => p.2.Coins)).sum

/-- All balances of the store are non-negative. -/
def allNonneg (s : Store) : Prop := ∀ p ∈ s, 0 ≤ p.2.Coins

instance (s : Store) : Decidable (allNonneg s) :=
  inferInstanceAs (Decidable (∀ p ∈ s, 0 ≤ p.2.Coins))

/-! ### Lemmas about the store -/

theorem totalCoins_nil : totalCoins [] = 0 := rfl

theorem totalCoins_cons (p : String × CoinDetails) (s : Store) :
    totalCoins (p :: s) = p.2.Coins + totalCoins s := by
  simp [totalCoins]

theorem lookupAcct_mem {s : Store} {u : String} {c : CoinDetails}
    (h : lookupAcct s u = some c) : (u, c) ∈ s := by
  induction s with
  | nil => simp [lookupAcct] at h
  | cons p rest ih =>
    obtain ⟨k, v⟩ := p
    by_cases hk : k = u
    · subst hk
      simp [lookupAcct] at h
      subst h
      exact List.mem_cons_self _ _
    · simp [lookupAcct, hk] at h
      exact List.mem_cons_of_mem _ (ih h)

theorem totalCoins_updateAcct {s : Store} {u : String} {c0 : CoinDetails}
    (c : CoinDetails) (h : lookupAcct s u = some c0) :
    totalCoins (updateAcct s u c) = totalCoins s + (c.Coins - c0.Coins) := by
  induction s with
  | nil => simp [lookupAcct] at h
  | cons p rest ih =>
    obtain ⟨k, v⟩ := p
    by_cases hk : k = u
    · subst hk
      simp [lookupAcct] at h
      subst h
      simp [updateAcct, totalCoins_cons]
      ring
    · simp [lookupAcct, hk] at h
      simp [updateAcct, hk, totalCoins_cons, ih h]
      ring

theorem lookupAcct_updateAcct_self {s : Store} {u : String} {c0 : CoinDetails}
    (c : CoinDetails) (h : lookupAcct s u = some c0) :
    lookupAcct (updateAcct s u c) u = some c := by
  induction s with
  | nil => simp [lookupAcct] at h
  | cons p rest ih =>
    obtain ⟨k, v⟩ := p
    by_cases hk : k = u
    · subst hk
      simp [updateAcct, lookupAcct]
    · simp [lookupAcct, hk] at h
      simp [updateAcct, lookupAcct, hk, ih h]

theorem lookupAcct_updateAcct_ne {s : Store} {u : String} (w : String) (c : CoinDetails)
    (hne : w ≠ u) : lookupAcct (updateAcct s u c) w = lookupAcct s w := by
  induction s with
  | nil => simp [updateAcct]
  | cons p rest ih =>
    obtain ⟨k, v⟩ := p
    by_cases hk : k = u
    · subst hk
      simp [updateAcct, lookupAcct, Ne.symm hne]
    · simp [updateAcct, lookupAcct, hk, ih]

theorem mem_updateAcct {s : Store} {u : String} {c : CoinDetails}
    {q : String × CoinDetails} (h : q ∈ updateAcct s u c) :
    q = (u, c) ∨ q ∈ s := by
  induction s with
  | nil => simp [updateAcct] at h
  | cons p rest ih =>
    obtain ⟨k, v⟩ := p
    by_cases hk : k = u
    · subst hk
      simp [updateAcct] at h
      rcases h with h | h
      · exact Or.inl h
      · exact Or.inr (List.mem_cons_of_mem _ h)
    · simp [updateAcct, hk] at h
      rcases h with h | h
      · exact Or.inr (by simp [h])
      · rcases ih h with h' | h'
        · exact Or.inl h'
        · exact Or.inr (List.mem_cons_of_mem _ h')

/-! ### Frame lemmas for `logTransaction` -/

theorem logTransaction_coins (d : MockDB) (ty f t : String) (a : Int) (st : String) :
    (logTransaction d ty f t a st).coins = d.coins := rfl

theorem logTransaction_operationCount (d : MockDB) (ty f t : String) (a : Int)
    (st : String) : (logTransaction d ty f t a st).operationCount = d.operationCount := rfl

theorem logTransaction_transactionLogs (d : MockDB) (ty f t : String) (a : Int)
    (st : String) :
    (logTransaction d ty f t a st).transactionLogs
      = pushLog d.transactionLogs
          { ID := "", Typ := ty, From := f, To := t, Amount := a,
            Timestamp := 0, Status := st } := rfl

/-! ### Arithmetic of the `int64` wraparound -/

theorem wrap64_emod (x : Int) : wrap64 x % 2^64 = x % 2^64 := by
  unfold wrap64
  omega

theorem wrap64_eq_self {x : Int} (h1 : -(2^63) ≤ x) (h2 : x < 2^63) :
    wrap64 x = x := by
  unfold wrap64
  omega

theorem wrap64_range (x : Int) : -(2^63) ≤ wrap64 x ∧ wrap64 x < 2^63 := by
  unfold wrap64
  omega

/-! ### Domain conditions -/

/-- Every stored balance is within the Go `int64` range (true of every
store a Go execution can hold, since balances are `int64` values). -/
def validStore (s : Store) : Prop := ∀ p ∈ s, int64Range p.2.Coins

instance (s : Store) : Decidable (validStore s) :=
  inferInstanceAs (Decidable (∀ p ∈ s, int64Range p.2.Coins))

/-- The credit `Coins + amount` of account `u`, if `u` exists, stays
below the `int64` maximum: the no-overflow side condition of a deposit
target or transfer recipient. -/
def creditOk (s : Store) (u : String) (a : Int) : Prop :=
  ∀ c, lookupAcct s u = some c → c.Coins + a < 2^63

instance creditOkDec (s : Store) (u : String) (a : Int) :
    Decidable (creditOk s u a) :=
  match h : lookupAcct s u with
  | none => isTrue (fun c hc => by rw [h] at hc; cases hc)
  | some c0 =>
      if hlt : c0.Coins + a < 2^63 then
        isTrue (fun c hc => by
          rw [h] at hc
          obtain rfl := Option.some.inj hc
          exact hlt)
      else
        isFalse (fun hall => hlt (hall c0 h))

/-- No credit performed by the operation overflows `int64`.  The debits
cannot overflow from a valid store (they are guarded by the
insufficient-funds comparisons), and version wraps do not affect the
coin sum. -/
def opNoOverflow (d : MockDB) : Op → Prop
  | .deposit u a => creditOk d.coins u a
  | .withdraw _ _ => True
  | .transfer _ t a => creditOk d.coins t a
  | .transferCtx _ _ t a => creditOk d.coins t a

instance (d : MockDB) (op : Op) : Decidable (opNoOverflow d op) :=
  match op with
  | .deposit u a => inferInstanceAs (Decidable (creditOk d.coins u a))
  | .withdraw _ _ => isTrue trivial
  | .transfer _ t a => inferInstanceAs (Decidable (creditOk d.coins t a))
  | .transferCtx _ _ t a => inferInstanceAs (Decidable (creditOk d.coins t a))

/-- No credit along the whole run overflows `int64`. -/
def noOverflowRun (d : MockDB) : List Op → Prop
  | [] => True
  | op :: ops => opNoOverflow d op ∧ noOverflowRun (applyOp d op) ops

instance noOverflowRunDec : (d : MockDB) → (ops : List Op) →
    Decidable (noOverflowRun d ops)
  | _, [] => isTrue trivial
  | d, op :: rest =>
      @instDecidableAnd _ _ inferInstance (noOverflowRunDec (applyOp d op) rest)

/-! ### Coin-sum behaviour of each operation -/

theorem totalCoins_AddUserCoins_mod (d : MockDB) (u : String) (a : Int) :
    totalCoins ((AddUserCoins d u a).1).coins % 2^64
      = (totalCoins d.coins
          + (if (AddUserCoins d u a).2.isSome then a else 0)) % 2^64 := by
  rw [AddUserCoins]
  split
  · simp [logTransaction]
  · split
    · simp [logTransaction]
    · next clientData h =>
      simp only [logTransaction, Option.isSome_some, if_true]
      rw [totalCoins_updateAcct _ h]
      have hw := wrap64_emod (clientData.Coins + a)
      dsimp only
      omega

theorem totalCoins_WithdrawUserCoins_mod (d : MockDB) (u : String) (a : Int) :
    totalCoins ((WithdrawUserCoins d u a).1).coins % 2^64
      = (totalCoins d.coins
          + (if (WithdrawUserCoins d u a).2.isSome then -a else 0)) % 2^64 := by
  rw [WithdrawUserCoins]
  split
  · simp [logTransaction]
  · split
    · simp [logTransaction]
    · next clientData h =>
      split
      · simp [logTransaction]
      · simp only [logTransaction, Option.isSome_some, if_true]
        rw [totalCoins_updateAcct _ h]
        have hw := wrap64_emod (clientData.Coins - a)
        dsimp only
        omega

theorem totalCoins_TransferUserCoinsWithContext_mod (d : MockDB) (c : Bool)
    (f t : String) (a : Int) :
    totalCoins ((TransferUserCoinsWithContext d c f t a).1).coins % 2^64
      = totalCoins d.coins % 2^64 := by
  rw [TransferUserCoinsWithContext]
  split
  · simp [logTransaction]
  · split
    · simp [logTransaction]
    · split
      · simp [logTransaction]
      · split
        · simp [logTransaction]
        · next fromData hf =>
          split
          · simp [logTransaction]
          · next toData ht =>
            split
            · simp [logTransaction]
            · simp only [logTransaction]
              have hft : ¬ f = t := by assumption
              rw [totalCoins_updateAcct _
                    (by rw [lookupAcct_updateAcct_ne t _ (fun he => hft he.symm)]; exact ht),
                  totalCoins_updateAcct _ hf]
              have hw1 := wrap64_emod (fromData.Coins - a)
              have hw2 := wrap64_emod (toData.Coins + a)
              dsimp only
              omega

theorem totalCoins_AddUserCoins_exact (d : MockDB) (u : String) (a : Int)
    (hv : validStore d.coins) (hok : creditOk d.coins u a) :
    totalCoins ((AddUserCoins d u a).1).coins
      = totalCoins d.coins + (if (AddUserCoins d u a).2.isSome then a else 0) := by
  rw [AddUserCoins]
  split
  · simp [logTransaction]
  · split
    · simp [logTransaction]
    · next clientData h =>
      have ha : ¬ a ≤ 0 := by assumption
      have hr : int64Range clientData.Coins := hv _ (lookupAcct_mem h)
      have hup := hok _ h
      have hw : wrap64 (clientData.Coins + a) = clientData.Coins + a := by
        have h1 := hr.1
        exact wrap64_eq_self (by omega) hup
      simp only [logTransaction, Option.isSome_some, if_true]
      rw [totalCoins_updateAcct _ h]
      dsimp only
      rw [hw]
      ring

theorem totalCoins_WithdrawUserCoins_exact (d : MockDB) (u : String) (a : Int)
    (hv : validStore d.coins) :
    totalCoins ((WithdrawUserCoins d u a).1).coins
      = totalCoins d.coins + (if (WithdrawUserCoins d u a).2.isSome then -a else 0) := by
  rw [WithdrawUserCoins]
  split
  · simp [logTransaction]
  · split
    · simp [logTransaction]
    · next clientData h =>
      split
      · simp [logTransaction]
      · next hng =>
        have ha : ¬ a ≤ 0 := by assumption
        have hr : int64Range clientData.Coins := hv _ (lookupAcct_mem h)
        have hw : wrap64 (clientData.Coins - a) = clientData.Coins - a := by
          have h2 := hr.2
          exact wrap64_eq_self (by omega) (by omega)
        simp only [logTransaction, Option.isSome_some, if_true]
        rw [totalCoins_updateAcct _ h]
        dsimp only
        rw [hw]
        ring

theorem totalCoins_TransferUserCoinsWithContext_exact (d : MockDB) (c : Bool)
    (f t : String) (a : Int) (hv : validStore d.coins)
    (hok : creditOk d.coins t a) :
    totalCoins ((TransferUserCoinsWithContext d c f t a).1).coins
      = totalCoins d.coins := by
  rw [TransferUserCoinsWithContext]
  split
  · simp [logTransaction]
  · split
    · simp [logTransaction]
    · split
      · simp [logTransaction]
      · split
        · simp [logTransaction]
        · next fromData hf =>
          split
          · simp [logTransaction]
          · next toData ht =>
            split
            · simp [logTransaction]
            · next hlt =>
              have ha : ¬ a ≤ 0 := by assumption
              have hft : ¬ f = t := by assumption
              have hr1 : int64Range fromData.Coins := hv _ (lookupAcct_mem hf)
              have hr2 : int64Range toData.Coins := hv _ (lookupAcct_mem ht)
              have hup := hok _ ht
              have hw1 : wrap64 (fromData.Coins - a) = fromData.Coins - a := by
                have h2 := hr1.2
                exact wrap64_eq_self (by omega) (by omega)
              have hw2 : wrap64 (toData.Coins + a) = toData.Coins + a := by
                have h1 := hr2.1
                exact wrap64_eq_self (by omega) hup
              simp only [logTransaction]
              rw [totalCoins_updateAcct _
                    (by rw [lookupAcct_updateAcct_ne t _ (fun he => hft he.symm)]; exact ht),
                  totalCoins_updateAcct _ hf]
              dsimp only
              rw [hw1, hw2]
              ring

theorem TransferUserCoins_fst (d : MockDB) (f t : String) (a : Int) :
    (TransferUserCoins d f t a).1 = (TransferUserCoinsWithContext d false f t a).1 := by
  unfold TransferUserCoins
  rcases h : TransferUserCoinsWithContext d false f t a with ⟨d', r⟩
  rcases r with e | ⟨x, y⟩ <;> simp [h]

theorem totalCoins_applyOp_mod (d : MockDB) (op : Op) :
    totalCoins (applyOp d op).coins % 2^64
      = (totalCoins d.coins + opDelta d op) % 2^64 := by
  cases op with
  | deposit u a => simpa [applyOp, opDelta] using totalCoins_AddUserCoins_mod d u a
  | withdraw u a => simpa [applyOp, opDelta] using totalCoins_WithdrawUserCoins_mod d u a
  | transfer f t a =>
      simpa [applyOp, opDelta, TransferUserCoins_fst] using
        totalCoins_TransferUserCoinsWithContext_mod d false f t a
  | transferCtx c f t a =>
      simpa [applyOp, opDelta] using
        totalCoins_TransferUserCoinsWithContext_mod d c f t a

theorem totalCoins_applyOp_exact (d : MockDB) (op : Op) (hv : validStore d.coins)
    (hno : opNoOverflow d op) :
    totalCoins (applyOp d op).coins = totalCoins d.coins + opDelta d op := by
  cases op with
  | deposit u a =>
      simpa [applyOp, opDelta] using totalCoins_AddUserCoins_exact d u a hv hno
  | withdraw u a =>
      simpa [applyOp, opDelta] using totalCoins_WithdrawUserCoins_exact d u a hv
  | transfer f t a =>
      simpa [applyOp, opDelta, TransferUserCoins_fst] using
        totalCoins_TransferUserCoinsWithContext_exact d false f t a hv hno
  | transferCtx c f t a =>
      simpa [applyOp, opDelta] using
        totalCoins_TransferUserCoinsWithContext_exact d c f t a hv hno

theorem validStore_updateAcct {s : Store} (hv : validStore s) {u : String}
    {c : CoinDetails} (hc : int64Range c.Coins) : validStore (updateAcct s u c) := by
  intro p hp
  rcases mem_updateAcct hp with rfl | hp2
  · exact hc
  · exact hv p hp2

theorem validStore_AddUserCoins (d : MockDB) (u : String) (a : Int)
    (hv : validStore d.coins) : validStore ((AddUserCoins d u a).1).coins := by
  rw [AddUserCoins]
  split
  · exact hv
  · split
    · exact hv
    · exact validStore_updateAcct hv (wrap64_range _)

theorem validStore_WithdrawUserCoins (d : MockDB) (u : String) (a : Int)
    (hv : validStore d.coins) : validStore ((WithdrawUserCoins d u a).1).coins := by
  rw [WithdrawUserCoins]
  split
  · exact hv
  · split
    · exact hv
    · split
      · exact hv
      · exact validStore_updateAcct hv (wrap64_range _)

theorem validStore_TransferUserCoinsWithContext (d : MockDB) (c : Bool)
    (f t : String) (a : Int) (hv : validStore d.coins) :
    validStore ((TransferUserCoinsWithContext d c f t a).1).coins := by
  rw [TransferUserCoinsWithContext]
  split
  · exact hv
  · split
    · exact hv
    · split
      · exact hv
      · split
        · exact hv
        · split
          · exact hv
          · split
            · exact hv
            · exact validStore_updateAcct
                (validStore_updateAcct hv (wrap64_range _)) (wrap64_range _)

theorem validStore_applyOp (d : MockDB) (op : Op) (hv : validStore d.coins) :
    validStore (applyOp d op).coins := by
  cases op with
  | deposit u a => exact validStore_AddUserCoins d u a hv
  | withdraw u a => exact validStore_WithdrawUserCoins d u a hv
  | transfer f t a =>
      show validStore (TransferUserCoins d f t a).1.coins
      rw [TransferUserCoins_fst]
      exact validStore_TransferUserCoinsWithContext d false f t a hv
  | transferCtx c f t a => exact validStore_TransferUserCoinsWithContext d c f t a hv

theorem conservation_mod (d : MockDB) (ops : List Op) :
    totalCoins (run d ops).coins % 2^64
      = (totalCoins d.coins + runDelta d ops) % 2^64 := by
  induction ops generalizing d with
  | nil => simp [run, runDelta]
  | cons op ops ih =>
    rw [run, runDelta]
    have h1 := totalCoins_applyOp_mod d op
    have h2 := ih (applyOp d op)
    omega

theorem conservation_exact (d : MockDB) (ops : List Op) :
    validStore d.coins → noOverflowRun d ops →
    totalCoins (run d ops).coins = totalCoins d.coins + runDelta d ops := by
  induction ops generalizing d with
  | nil =>
    intro _ _
    simp [run, runDelta]
  | cons op ops ih =>
    intro hv hno
    obtain ⟨h1, h2⟩ := hno
    rw [run, runDelta, ih (applyOp d op) (validStore_applyOp d op hv) h2,
        totalCoins_applyOp_exact d op hv h1]
    ring

/-- C1 counterexample: a deposit of `2^63 - 1` onto the initial balance
of 1000 succeeds (returns non-nil, logs SUCCESS), but the Go `int64`
credit wraps, so the global coin sum does not change by the deposited
amount — refuting the claimed exact conservation equation. -/
theorem conservation_overflow_counterexample :
    (AddUserCoins initialDB "aaron" (2^63 - 1)).2.isSome = true ∧
    totalCoins ((AddUserCoins initialDB "aaron" (2^63 - 1)).1).coins
      ≠ totalCoins initialDB.coins + (2^63 - 1) := by
  decide

/-- C1 amended: for every store state and every sequence of deposit,
withdrawal and transfer calls executed sequentially, the sum of `Coins`
over all accounts after the sequence is congruent modulo `2^64` to the
initial sum plus the amounts of the successful deposits minus the
amounts of the successful withdrawals (transfers, successful or failed,
and failed operations contribute zero); the equality is exact whenever
the store is within `int64` range and no credit performed along the
run overflows `int64` — an overflowing credit wraps, changing the sum
by the amount minus `2^64`. -/
theorem conservation_of_coins (d : MockDB) (ops : List Op) :
    totalCoins (run d ops).coins % 2^64
      = (totalCoins d.coins + runDelta d ops) % 2^64 ∧
    (validStore d.coins → noOverflowRun d ops →
      totalCoins (run d ops).coins = totalCoins d.coins + runDelta d ops) :=
  ⟨conservation_mod d ops, fun hv hno => conservation_exact d ops hv hno⟩

/-- Witness for C1: a concrete overflow-free run on the initial store,
with the exactness hypotheses discharged by evaluation. -/
theorem conservation_of_coins_witness :
    validStore initialDB.coins ∧
    noOverflowRun initialDB [Op.deposit "aaron" 5, Op.transfer "aaron" "bryan" 3] ∧
    totalCoins (run initialDB
        [Op.deposit "aaron" 5, Op.transfer "aaron" "bryan" 3]).coins
      = totalCoins initialDB.coins
        + runDelta initialDB [Op.deposit "aaron" 5, Op.transfer "aaron" "bryan" 3] :=
  ⟨by decide, by decide,
   (conservation_of_coins initialDB
      [Op.deposit "aaron" 5, Op.transfer "aaron" "bryan" 3]).2 (by decide) (by decide)⟩


/-! ### Non-negativity -/

theorem allNonneg_updateAcct {s : Store} (h : allNonneg s) {u : String}
    {c : CoinDetails} (hc : 0 ≤ c.Coins) : allNonneg (updateAcct s u c) := by
  intro p hp
  rcases mem_updateAcct hp with rfl | hp2
  · exact hc
  · exact h p hp2

theorem allNonneg_AddUserCoins {d : MockDB} (h : allNonneg d.coins)
    (u : String) (a : Int) (hok : creditOk d.coins u a) :
    allNonneg ((AddUserCoins d u a).1).coins := by
  rw [AddUserCoins]
  split
  · exact h
  · split
    · exact h
    · next clientData hc =>
      have ha : ¬ a ≤ 0 := by assumption
      have h0 : 0 ≤ clientData.Coins := h _ (lookupAcct_mem hc)
      have hup := hok _ hc
      refine allNonneg_updateAcct h ?_
      show 0 ≤ wrap64 (clientData.Coins + a)
      rw [wrap64_eq_self (by omega) hup]
      omega

theorem allNonneg_WithdrawUserCoins {d : MockDB} (h : allNonneg d.coins)
    (hv : validStore d.coins) (u : String) (a : Int) :
    allNonneg ((WithdrawUserCoins d u a).1).coins := by
  rw [WithdrawUserCoins]
  split
  · exact h
  · split
    · exact h
    · next clientData hc =>
      split
      · exact h
      · next hgt =>
        have ha : ¬ a ≤ 0 := by assumption
        have hr : int64Range clientData.Coins := hv _ (lookupAcct_mem hc)
        refine allNonneg_updateAcct h ?_
        show 0 ≤ wrap64 (clientData.Coins - a)
        have h2 := hr.2
        rw [wrap64_eq_self (by omega) (by omega)]
        omega

theorem allNonneg_TransferUserCoinsWithContext {d : MockDB} (h : allNonneg d.coins)
    (hv : validStore d.coins) (c : Bool) (f t : String) (a : Int)
    (hok : creditOk d.coins t a) :
    allNonneg ((TransferUserCoinsWithContext d c f t a).1).coins := by
  rw [TransferUserCoinsWithContext]
  split
  · exact h
  · split
    · exact h
    · split
      · exact h
      · split
        · exact h
        · next fromData hf =>
          split
          · exact h
          · next toData ht =>
            split
            · exact h
            · next hlt =>
              have ha : ¬ a ≤ 0 := by assumption
              have hr1 : int64Range fromData.Coins := hv _ (lookupAcct_mem hf)
              have h0t : 0 ≤ toData.Coins := h _ (lookupAcct_mem ht)
              have hup := hok _ ht
              refine allNonneg_updateAcct (allNonneg_updateAcct h ?_) ?_
              · show 0 ≤ wrap64 (fromData.Coins - a)
                have h2 := hr1.2
                rw [wrap64_eq_self (by omega) (by omega)]
                omega
              · show 0 ≤ wrap64 (toData.Coins + a)
                rw [wrap64_eq_self (by omega) hup]
                omega

/-- C2 counterexample: on the initial all-non-negative store, a deposit
of `2^63 - 1` succeeds (logs SUCCESS, returns non-nil), but the Go
`int64` credit wraps and a negative balance is stored — refuting the
claim that no operation ever stores a negative balance. -/
theorem nonneg_overflow_counterexample :
    allNonneg initialDB.coins ∧
    (AddUserCoins initialDB "aaron" (2^63 - 1)).2.isSome = true ∧
    ¬ allNonneg ((AddUserCoins initialDB "aaron" (2^63 - 1)).1).coins := by
  decide

/-- C2 amended: for every store state within `int64` range in which
every account's `Coins` is non-negative, after any single call to
`AddUserCoins`, `WithdrawUserCoins`, `TransferUserCoins` or
`TransferUserCoinsWithContext`, every account's `Coins` is still
non-negative, provided the credited balance (deposit target or transfer
recipient) does not exceed the `int64` maximum; an overflowing Go
credit wraps below zero. -/
theorem nonneg_balances_preserved (d : MockDB) (h : allNonneg d.coins)
    (hv : validStore d.coins) :
    (∀ u a, creditOk d.coins u a → allNonneg ((AddUserCoins d u a).1).coins) ∧
    (∀ u a, allNonneg ((WithdrawUserCoins d u a).1).coins) ∧
    (∀ f t a, creditOk d.coins t a →
      allNonneg ((TransferUserCoins d f t a).1).coins) ∧
    (∀ c f t a, creditOk d.coins t a →
      allNonneg ((TransferUserCoinsWithContext d c f t a).1).coins) :=
  ⟨fun u a hok => allNonneg_AddUserCoins h u a hok,
   fun u a => allNonneg_WithdrawUserCoins h hv u a,
   fun f t a hok => by
     rw [TransferUserCoins_fst]
     exact allNonneg_TransferUserCoinsWithContext h hv false f t a hok,
   fun c f t a hok => allNonneg_TransferUserCoinsWithContext h hv c f t a hok⟩

/-- Witness for C2 on the initial store: the hypotheses hold there and
a concrete withdrawal keeps all balances non-negative. -/
theorem nonneg_balances_preserved_witness :
    allNonneg initialDB.coins ∧ validStore initialDB.coins ∧
    allNonneg ((WithdrawUserCoins initialDB "aaron" 250).1).coins :=
  ⟨by decide, by decide,
   (nonneg_balances_preserved initialDB (by decide) (by decide)).2.1 "aaron" 250⟩


/-- C10: the blocking variant `TransferUserCoins` returns either two
`some` snapshots (success) or `(none, none)` (failure), never one `none`
and one `some`: it delegates to `TransferUserCoinsWithContext` with a
never-done context and collapses every error to the `(none, none)`
pair. -/
theorem transfer_both_or_neither (d : MockDB) (f t : String) (a : Int) :
    (TransferUserCoins d f t a).1 = (TransferUserCoinsWithContext d false f t a).1 ∧
    (((∃ e, (TransferUserCoinsWithContext d false f t a).2 = Except.error e) ∧
        (TransferUserCoins d f t a).2 = (none, none)) ∨
      (∃ x y, (TransferUserCoinsWithContext d false f t a).2 = Except.ok (x, y) ∧
        (TransferUserCoins d f t a).2 = (some x, some y))) := by
  refine ⟨TransferUserCoins_fst d f t a, ?_⟩
  unfold TransferUserCoins
  rcases h : TransferUserCoinsWithContext d false f t a with ⟨d', r⟩
  rcases r with e | ⟨x, y⟩
  · exact Or.inl ⟨⟨e, rfl⟩, by simp [h]⟩
  · exact Or.inr ⟨x, y, rfl, by simp [h]⟩

/-! ### Successful transfers -/

/-- A store holding a recipient balance at the `int64` maximum: input
data for the transfer-credit overflow counterexample. -/
def overflowDB : MockDB :=
  SetupDatabase
    [("aaron", { Coins := 1000, Username := "aaron", Version := 1 }),
     ("rich", { Coins := 2^63 - 1, Username := "rich", Version := 1 })] 0

/-- C3 counterexample: a transfer of 5 to an account holding the `int64`
maximum passes every check and succeeds, but the Go credit
`toData.Coins + amount` wraps: the stored recipient balance becomes
negative instead of increasing by exactly the amount. -/
theorem transfer_credit_overflow_counterexample :
    (TransferUserCoinsWithContext overflowDB false "aaron" "rich" 5).2
      = Except.ok
          ({ Coins := 995, Username := "aaron", Version := 2 },
           { Coins := -(2^63) + 4, Username := "rich", Version := 2 }) ∧
    lookupAcct
        ((TransferUserCoinsWithContext overflowDB false "aaron" "rich" 5).1).coins
        "rich"
      = some { Coins := -(2^63) + 4, Username := "rich", Version := 2 } ∧
    ((-(2^63) + 4 : Int) ≠ (2^63 - 1) + 5) := by
  decide

/-- C3 amended: for every store state where `from ≠ to`, both accounts
exist, `0 < amount ≤ Coins(from)`, the involved balances and bumped
versions stay within `int64` range, and in particular the recipient
credit `Coins(to) + amount` does not exceed the `int64` maximum, a
transfer (context variant with a non-cancelled context, or the blocking
variant) succeeds: the stored `Coins` of `from` drops by exactly
`amount`, the stored `Coins` of `to` rises by exactly `amount`, both
`Version` counters rise by exactly 1 in the same record update as the
balance change, and the returned snapshots equal the updated stored
records.  Without the credit bound the Go `int64` addition wraps (see
the counterexample). -/
theorem transfer_success (d : MockDB) (fromU toU : String) (amount : Int)
    (fromData toData : CoinDetails)
    (hne : fromU ≠ toU)
    (hf : lookupAcct d.coins fromU = some fromData)
    (ht : lookupAcct d.coins toU = some toData)
    (hpos : 0 < amount)
    (hle : amount ≤ fromData.Coins)
    (hfc : int64Range fromData.Coins)
    (htc : int64Range toData.Coins)
    (hcred : toData.Coins + amount < 2^63)
    (hfv : int64Range (fromData.Version + 1))
    (htv : int64Range (toData.Version + 1)) :
    ∃ f' t',
      (TransferUserCoinsWithContext d false fromU toU amount).2 = Except.ok (f', t') ∧
      (TransferUserCoins d fromU toU amount).2 = (some f', some t') ∧
      f'.Coins = fromData.Coins - amount ∧
      f'.Version = fromData.Version + 1 ∧
      t'.Coins = toData.Coins + amount ∧
      t'.Version = toData.Version + 1 ∧
      lookupAcct ((TransferUserCoinsWithContext d false fromU toU amount).1).coins fromU
        = some f' ∧
      lookupAcct ((TransferUserCoinsWithContext d false fromU toU amount).1).coins toU
        = some t' ∧
      lookupAcct ((TransferUserCoins d fromU toU amount).1).coins fromU = some f' ∧
      lookupAcct ((TransferUserCoins d fromU toU amount).1).coins toU = some t' := by
  have hnle : ¬ amount ≤ 0 := by omega
  have hlt : ¬ fromData.Coins < amount := by omega
  have hwf : wrap64 (fromData.Coins - amount) = fromData.Coins - amount := by
    have h2 := hfc.2
    exact wrap64_eq_self (by omega) (by omega)
  have hwt : wrap64 (toData.Coins + amount) = toData.Coins + amount := by
    have h1 := htc.1
    exact wrap64_eq_self (by omega) hcred
  have hvf : wrap64 (fromData.Version + 1) = fromData.Version + 1 :=
    wrap64_eq_self hfv.1 hfv.2
  have hvt : wrap64 (toData.Version + 1) = toData.Version + 1 :=
    wrap64_eq_self htv.1 htv.2
  have hcall : TransferUserCoinsWithContext d false fromU toU amount
      = (logTransaction
          { d with coins := (updateAcct
                (updateAcct d.coins fromU
                  { fromData with Coins := fromData.Coins - amount,
                                  Version := fromData.Version + 1 }) toU
                { toData with Coins := toData.Coins + amount,
                              Version := toData.Version + 1 }) }
          "TRANSFER" fromU toU amount "SUCCESS",
         Except.ok
           ({ fromData with Coins := fromData.Coins - amount,
                            Version := fromData.Version + 1 },
            { toData with Coins := toData.Coins + amount,
                          Version := toData.Version + 1 })) := by
    rw [TransferUserCoinsWithContext]
    simp [hnle, hne, hf, ht, hlt, hwf, hwt, hvf, hvt]
  refine ⟨{ fromData with Coins := fromData.Coins - amount,
                          Version := fromData.Version + 1 },
         { toData with Coins := toData.Coins + amount,
                       Version := toData.Version + 1 },
         ?_, ?_, rfl, rfl, rfl, rfl, ?_, ?_, ?_, ?_⟩
  · rw [hcall]
  · rw [TransferUserCoins, hcall]
  · rw [hcall, logTransaction_coins]
    rw [lookupAcct_updateAcct_ne _ _ hne, lookupAcct_updateAcct_self _ hf]
  · rw [hcall, logTransaction_coins]
    rw [lookupAcct_updateAcct_self]
    rw [lookupAcct_updateAcct_ne _ _ (Ne.symm hne)]
    exact ht
  · rw [TransferUserCoins_fst, hcall, logTransaction_coins]
    rw [lookupAcct_updateAcct_ne _ _ hne, lookupAcct_updateAcct_self _ hf]
  · rw [TransferUserCoins_fst, hcall, logTransaction_coins]
    rw [lookupAcct_updateAcct_self]
    rw [lookupAcct_updateAcct_ne _ _ (Ne.symm hne)]
    exact ht

/-- Witness for C3: a concrete successful transfer on the initial store,
all range hypotheses discharged by evaluation. -/
theorem transfer_success_witness :
    ∃ f' t',
      (TransferUserCoinsWithContext initialDB false "aaron" "bryan" 5).2
        = Except.ok (f', t') ∧
      (TransferUserCoins initialDB "aaron" "bryan" 5).2 = (some f', some t') ∧
      f'.Coins = (1000 : Int) - 5 ∧
      f'.Version = (1 : Int) + 1 ∧
      t'.Coins = (1000 : Int) + 5 ∧
      t'.Version = (1 : Int) + 1 ∧
      lookupAcct ((TransferUserCoinsWithContext initialDB false "aaron" "bryan" 5).1).coins
        "aaron" = some f' ∧
      lookupAcct ((TransferUserCoinsWithContext initialDB false "aaron" "bryan" 5).1).coins
        "bryan" = some t' ∧
      lookupAcct ((TransferUserCoins initialDB "aaron" "bryan" 5).1).coins "aaron"
        = some f' ∧
      lookupAcct ((TransferUserCoins initialDB "aaron" "bryan" 5).1).coins "bryan"
        = some t' :=
  transfer_success initialDB "aaron" "bryan" 5
    { Coins := 1000, Username := "aaron", Version := 1 }
    { Coins := 1000, Username := "bryan", Version := 1 }
    (by decide) (by decide) (by decide) (by decide) (by decide)
    (by decide) (by decide) (by decide) (by decide) (by decide)


/-! ### Rejection paths -/

/-- C4 counterexample: a self-transfer of amount 0 is rejected as an
invalid amount — the `amount <= 0` check runs before the `from == to`
check — so the claim that a transfer whose `from` equals its `to` fails
with `SelfTransferNotAllowed` for every amount is false. -/
theorem self_transfer_zero_amount_counterexample :
    (TransferUserCoinsWithContext initialDB false "aaron" "aaron" 0).2
      = Except.error TransferError.invalidAmount ∧
    (TransferUserCoinsWithContext initialDB false "aaron" "aaron" 0).2
      ≠ Except.error TransferError.selfTransfer ∧
    (TransferUserCoinsWithContext initialDB false "aaron" "aaron" 0).1.transactionLogs
      = [{ ID := "", Typ := "TRANSFER", From := "aaron", To := "aaron",
           Amount := 0, Timestamp := 0, Status := "FAILED_INVALID_AMOUNT" }] := by
  decide

/-- C4 amended: for every existing account with non-negative balance `b`
and every `amount > b`, `WithdrawUserCoins` fails with insufficient
funds and leaves the whole account store — hence that account's balance
and version — unchanged; and for every account and every *positive*
amount, a self-transfer (through either transfer entry point, context
not cancelled) fails with `SelfTransferNotAllowed` and mutates no
account. -/
theorem withdraw_insufficient_and_self_transfer (d : MockDB) (u : String)
    (b : CoinDetails) (amount : Int)
    (hb : lookupAcct d.coins u = some b) (hb0 : 0 ≤ b.Coins)
    (hgt : amount > b.Coins) :
    ((WithdrawUserCoins d u amount).2 = none ∧
     (WithdrawUserCoins d u amount).1.coins = d.coins ∧
     (WithdrawUserCoins d u amount).1.transactionLogs
       = pushLog d.transactionLogs
           { ID := "", Typ := "WITHDRAWAL", From := u, To := "",
             Amount := amount, Timestamp := 0,
             Status := "FAILED_INSUFFICIENT_FUNDS" }) ∧
    (∀ f a, 0 < a →
      (TransferUserCoinsWithContext d false f f a).2
          = Except.error TransferError.selfTransfer ∧
      (TransferUserCoinsWithContext d false f f a).1.coins = d.coins ∧
      (TransferUserCoinsWithContext d false f f a).1.transactionLogs
          = pushLog d.transactionLogs
              { ID := "", Typ := "TRANSFER", From := f, To := f,
                Amount := a, Timestamp := 0, Status := "FAILED_SELF_TRANSFER" } ∧
      (TransferUserCoins d f f a).2 = (none, none) ∧
      (TransferUserCoins d f f a).1.coins = d.coins) := by
  constructor
  · have hnle : ¬ amount ≤ 0 := by omega
    rw [WithdrawUserCoins]
    simp [hnle, hb, hgt, logTransaction]
  · intro f a ha
    have hnle : ¬ a ≤ 0 := by omega
    rw [TransferUserCoins, TransferUserCoinsWithContext]
    simp [hnle, logTransaction]

/-- Witness for C4's amended statement on the initial store. -/
theorem withdraw_insufficient_and_self_transfer_witness :
    (WithdrawUserCoins initialDB "aaron" 2000).2 = none ∧
    (TransferUserCoinsWithContext initialDB false "bryan" "bryan" 7).2
      = Except.error TransferError.selfTransfer := by
  obtain ⟨⟨h1, _, _⟩, h2⟩ :=
    withdraw_insufficient_and_self_transfer initialDB "aaron"
      { Coins := 1000, Username := "aaron", Version := 1 } 2000
      (by decide) (by decide) (by decide)
  exact ⟨h1, (h2 "bryan" 7 (by decide)).1⟩

/-- C6: with an already-cancelled context, `TransferUserCoinsWithContext`
returns the `Cancelled` error, leaves the account store (and the health
flags, metrics and start time) exactly as before the call, and still
appends one audit record with status `FAILED_CONTEXT_CANCELLED`; the
statement quantifies over all arguments — invalid amounts,
self-transfers, unknown accounts and insufficient balances included —
so the cancellation signal is checked at entry, before any validation
or mutation. -/
theorem cancelled_context_no_mutation (d : MockDB) (f t : String) (a : Int) :
    (TransferUserCoinsWithContext d true f t a).2
      = Except.error TransferError.contextCancelled ∧
    (TransferUserCoinsWithContext d true f t a).1.coins = d.coins ∧
    (TransferUserCoinsWithContext d true f t a).1.healthStatus = d.healthStatus ∧
    (TransferUserCoinsWithContext d true f t a).1.operationCount = d.operationCount ∧
    (TransferUserCoinsWithContext d true f t a).1.startTime = d.startTime ∧
    (TransferUserCoinsWithContext d true f t a).1.transactionLogs
      = pushLog d.transactionLogs
          { ID := "", Typ := "TRANSFER", From := f, To := t, Amount := a,
            Timestamp := 0, Status := "FAILED_CONTEXT_CANCELLED" } :=
  ⟨rfl, rfl, rfl, rfl, rfl, rfl⟩

/-! ### Audit completeness -/

theorem transferFailStatus_injective : Function.Injective transferFailStatus := by
  intro a b h
  cases a <;> cases b <;> revert h <;> decide

theorem transferFailStatus_ne_success (e : TransferError) :
    transferFailStatus e ≠ "SUCCESS" := by
  cases e <;> decide

theorem audit_AddUserCoins (d : MockDB) (u : String) (a : Int) :
    ∃ rec : TransactionLog,
      (AddUserCoins d u a).1.transactionLogs = pushLog d.transactionLogs rec ∧
      rec.Typ = "DEPOSIT" ∧ rec.From = "" ∧ rec.To = u ∧ rec.Amount = a ∧
      ((AddUserCoins d u a).2.isSome ↔ rec.Status = "SUCCESS") ∧
      (a ≤ 0 → rec.Status = "FAILED_INVALID_AMOUNT") ∧
      (0 < a → lookupAcct d.coins u = none → rec.Status = "FAILED_USER_NOT_FOUND") := by
  rw [AddUserCoins]
  split
  · next ha =>
    refine ⟨_, rfl, rfl, rfl, rfl, rfl, ?_, fun _ => rfl,
      fun h _ => absurd ha (by omega)⟩
    simp
  · next ha =>
    split
    · next hnone =>
      refine ⟨_, rfl, rfl, rfl, rfl, rfl, ?_, fun h => absurd h ha,
        fun _ _ => rfl⟩
      simp
    · next clientData hsome =>
      refine ⟨_, rfl, rfl, rfl, rfl, rfl, ?_, fun h => absurd h ha, ?_⟩
      · simp
      · intro _ h
        rw [hsome] at h
        cases h

theorem audit_WithdrawUserCoins (d : MockDB) (u : String) (a : Int) :
    ∃ rec : TransactionLog,
      (WithdrawUserCoins d u a).1.transactionLogs = pushLog d.transactionLogs rec ∧
      rec.Typ = "WITHDRAWAL" ∧ rec.From = u ∧ rec.To = "" ∧ rec.Amount = a ∧
      ((WithdrawUserCoins d u a).2.isSome ↔ rec.Status = "SUCCESS") ∧
      (a ≤ 0 → rec.Status = "FAILED_INVALID_AMOUNT") ∧
      (0 < a → lookupAcct d.coins u = none → rec.Status = "FAILED_USER_NOT_FOUND") ∧
      (∀ c0, lookupAcct d.coins u = some c0 → 0 < a → a > c0.Coins →
        rec.Status = "FAILED_INSUFFICIENT_FUNDS") := by
  rw [WithdrawUserCoins]
  split
  · next ha =>
    refine ⟨_, rfl, rfl, rfl, rfl, rfl, ?_, fun _ => rfl,
      fun h _ => absurd ha (by omega), fun _ _ h _ => absurd ha (by omega)⟩
    simp
  · next ha =>
    split
    · next hnone =>
      refine ⟨_, rfl, rfl, rfl, rfl, rfl, ?_, fun h => absurd h ha,
        fun _ _ => rfl, ?_⟩
      · simp
      · intro c0 hc0 _ _
        rw [hnone] at hc0
        cases hc0
    · next clientData hsome =>
      split
      · next hgt =>
        refine ⟨_, rfl, rfl, rfl, rfl, rfl, ?_, fun h => absurd h ha,
          ?_, ?_⟩
        · simp
        · intro _ h
          rw [hsome] at h
          cases h
        · intro _ _ _ _
          rfl
      · next hng =>
        refine ⟨_, rfl, rfl, rfl, rfl, rfl, ?_, fun h => absurd h ha,
          ?_, ?_⟩
        · simp
        · intro _ h
          rw [hsome] at h
          cases h
        · intro c0 hc0 _ hgt'
          rw [hsome] at hc0
          obtain rfl : clientData = c0 := Option.some.inj hc0
          exact absurd hgt' hng

theorem audit_TransferUserCoinsWithContext (d : MockDB) (c : Bool)
    (f t : String) (a : Int) :
    ∃ rec : TransactionLog,
      (TransferUserCoinsWithContext d c f t a).1.transactionLogs
        = pushLog d.transactionLogs rec ∧
      rec.Typ = "TRANSFER" ∧ rec.From = f ∧ rec.To = t ∧ rec.Amount = a ∧
      (∀ x y, (TransferUserCoinsWithContext d c f t a).2 = Except.ok (x, y) →
        rec.Status = "SUCCESS") ∧
      (∀ e, (TransferUserCoinsWithContext d c f t a).2 = Except.error e →
        rec.Status = transferFailStatus e) := by
  rw [TransferUserCoinsWithContext]
  split
  · refine ⟨_, rfl, rfl, rfl, rfl, rfl, ?_, ?_⟩
    · intro x y h
      cases h
    · intro e h
      cases h
      rfl
  · split
    · refine ⟨_, rfl, rfl, rfl, rfl, rfl, ?_, ?_⟩
      · intro x y h
        cases h
      · intro e h
        cases h
        rfl
    · split
      · refine ⟨_, rfl, rfl, rfl, rfl, rfl, ?_, ?_⟩
        · intro x y h
          cases h
        · intro e h
          cases h
          rfl
      · split
        · refine ⟨_, rfl, rfl, rfl, rfl, rfl, ?_, ?_⟩
          · intro x y h
            cases h
          · intro e h
            cases h
            rfl
        · split
          · refine ⟨_, rfl, rfl, rfl, rfl, rfl, ?_, ?_⟩
            · intro x y h
              cases h
            · intro e h
              cases h
              rfl
          · split
            · refine ⟨_, rfl, rfl, rfl, rfl, rfl, ?_, ?_⟩
              · intro x y h
                cases h
              · intro e h
                cases h
                rfl
            · refine ⟨_, rfl, rfl, rfl, rfl, rfl, ?_, ?_⟩
              · intro x y h
                rfl
              · intro e h
                cases h

theorem TransferUserCoins_snd (d : MockDB) (f t : String) (a : Int) :
    (TransferUserCoins d f t a).2
      = match (TransferUserCoinsWithContext d false f t a).2 with
        | Except.error _ => (none, none)
        | Except.ok (x, y) => (some x, some y) := by
  rw [TransferUserCoins]
  rcases hp : TransferUserCoinsWithContext d false f t a with ⟨d', r⟩
  rcases r with e | ⟨x, y⟩ <;> simp

theorem audit_TransferUserCoins (d : MockDB) (f t : String) (a : Int) :
    ∃ rec : TransactionLog,
      (TransferUserCoins d f t a).1.transactionLogs = pushLog d.transactionLogs rec ∧
      rec.Typ = "TRANSFER" ∧ rec.From = f ∧ rec.To = t ∧ rec.Amount = a ∧
      ((TransferUserCoins d f t a).2 ≠ (none, none) ↔ rec.Status = "SUCCESS") := by
  obtain ⟨rec, h1, h2, h3, h4, h5, hok, herr⟩ :=
    audit_TransferUserCoinsWithContext d false f t a
  refine ⟨rec, ?_, h2, h3, h4, h5, ?_⟩
  · rw [TransferUserCoins_fst]
    exact h1
  · rw [TransferUserCoins_snd]
    rcases hc : (TransferUserCoinsWithContext d false f t a).2 with e | ⟨x, y⟩
    · simp only []
      constructor
      · intro h
        exact absurd rfl h
      · intro h
        rw [herr e hc] at h
        exact absurd h (transferFailStatus_ne_success e)
    · simp [hok x y hc]

/-- C5: every call to `AddUserCoins`, `WithdrawUserCoins`,
`TransferUserCoins` or `TransferUserCoinsWithContext` — successful or
failed — appends exactly one new record to the transaction log (via the
bounded append `pushLog`) whose type (`DEPOSIT`/`WITHDRAWAL`/`TRANSFER`),
`From`, `To` and `Amount` match the call's arguments (`From` empty for a
deposit, `To` empty for a withdrawal, the requested amount recorded even
on failure), whose status is `"SUCCESS"` exactly on success, and whose
failure status identifies the cause (for transfers the status is the
injective image of the error cause, never `"SUCCESS"`; for deposits and
withdrawals each rejection branch writes its own distinct status). -/
theorem audit_completeness (d : MockDB) :
    (∀ u a, ∃ rec : TransactionLog,
      (AddUserCoins d u a).1.transactionLogs = pushLog d.transactionLogs rec ∧
      rec.Typ = "DEPOSIT" ∧ rec.From = "" ∧ rec.To = u ∧ rec.Amount = a ∧
      ((AddUserCoins d u a).2.isSome ↔ rec.Status = "SUCCESS") ∧
      (a ≤ 0 → rec.Status = "FAILED_INVALID_AMOUNT") ∧
      (0 < a → lookupAcct d.coins u = none →
        rec.Status = "FAILED_USER_NOT_FOUND")) ∧
    (∀ u a, ∃ rec : TransactionLog,
      (WithdrawUserCoins d u a).1.transactionLogs = pushLog d.transactionLogs rec ∧
      rec.Typ = "WITHDRAWAL" ∧ rec.From = u ∧ rec.To = "" ∧ rec.Amount = a ∧
      ((WithdrawUserCoins d u a).2.isSome ↔ rec.Status = "SUCCESS") ∧
      (a ≤ 0 → rec.Status = "FAILED_INVALID_AMOUNT") ∧
      (0 < a → lookupAcct d.coins u = none →
        rec.Status = "FAILED_USER_NOT_FOUND") ∧
      (∀ c0, lookupAcct d.coins u = some c0 → 0 < a → a > c0.Coins →
        rec.Status = "FAILED_INSUFFICIENT_FUNDS")) ∧
    (∀ c f t a, ∃ rec : TransactionLog,
      (TransferUserCoinsWithContext d c f t a).1.transactionLogs
        = pushLog d.transactionLogs rec ∧
      rec.Typ = "TRANSFER" ∧ rec.From = f ∧ rec.To = t ∧ rec.Amount = a ∧
      (∀ x y, (TransferUserCoinsWithContext d c f t a).2 = Except.ok (x, y) →
        rec.Status = "SUCCESS") ∧
      (∀ e, (TransferUserCoinsWithContext d c f t a).2 = Except.error e →
        rec.Status = transferFailStatus e)) ∧
    (∀ f t a, ∃ rec : TransactionLog,
      (TransferUserCoins d f t a).1.transactionLogs = pushLog d.transactionLogs rec ∧
      rec.Typ = "TRANSFER" ∧ rec.From = f ∧ rec.To = t ∧ rec.Amount = a ∧
      ((TransferUserCoins d f t a).2 ≠ (none, none) ↔ rec.Status = "SUCCESS")) ∧
    Function.Injective transferFailStatus ∧
    (∀ e, transferFailStatus e ≠ "SUCCESS") :=
  ⟨fun u a => audit_AddUserCoins d u a,
   fun u a => audit_WithdrawUserCoins d u a,
   fun c f t a => audit_TransferUserCoinsWithContext d c f t a,
   fun f t a => audit_TransferUserCoins d f t a,
   transferFailStatus_injective,
   transferFailStatus_ne_success⟩

/-- Witness for C5: concrete audited operations on the initial store. -/
theorem audit_completeness_witness :
    (∃ rec : TransactionLog,
      (AddUserCoins initialDB "aaron" 5).1.transactionLogs
        = pushLog initialDB.transactionLogs rec ∧
      rec.Status = "SUCCESS") ∧
    (∃ rec : TransactionLog,
      (WithdrawUserCoins initialDB "aaron" 2000).1.transactionLogs
        = pushLog initialDB.transactionLogs rec ∧
      rec.Status = "FAILED_INSUFFICIENT_FUNDS") := by
  obtain ⟨hdep, hwit, _, _, _, _⟩ := audit_completeness initialDB
  constructor
  · obtain ⟨rec, h1, _, _, _, _, h6, _, _⟩ := hdep "aaron" 5
    exact ⟨rec, h1, h6.mp (by decide)⟩
  · obtain ⟨rec, h1, _, _, _, _, _, _, _, h9⟩ := hwit "aaron" 2000
    exact ⟨rec, h1,
      h9 { Coins := 1000, Username := "aaron", Version := 1 } (by decide)
        (by decide) (by decide)⟩

/-! ### Bounded FIFO audit log -/

/-- The most recent `n` elements of a list, in original order (the
spec-side reading of ring-buffer retention). -/
def lastN {α : Type} (n : Nat) (l : List α) : List α := l.drop (l.length - n)

theorem pushLog_eq_lastN (logs : List TransactionLog) (rec : TransactionLog) :
    pushLog logs rec = lastN 1000 (logs ++ [rec]) := by
  rw [pushLog, lastN]
  split
  · rfl
  · next hlen =>
    have h0 : (logs ++ [rec]).length - 1000 = 0 := by omega
    rw [h0, List.drop_zero]

theorem length_lastN_le {α : Type} (n : Nat) (l : List α) :
    (lastN n l).length ≤ n := by
  rw [lastN, List.length_drop]
  omega

theorem lastN_append {α : Type} (n : Nat) (x y : List α) :
    lastN n (lastN n x ++ y) = lastN n (x ++ y) := by
  rcases le_or_lt x.length n with h | h
  · have hx : lastN n x = x := by
      have h0 : x.length - n = 0 := by omega
      rw [lastN, h0, List.drop_zero]
    rw [hx]
  · simp only [lastN, List.length_append, List.length_drop,
      List.drop_append_eq_append_drop, List.drop_drop]
    congr 1
    · congr 1
      omega
    · congr 1
      omega

/-- One `logTransaction` call per element: the audit writers serialized
by the log lock. -/
def runLog (d : MockDB) : List (String × String × String × Int × String) → MockDB
  | [] => d
  | (ty, f, t, a, st) :: rest => runLog (logTransaction d ty f t a st) rest

/-- The record `logTransaction` builds from one request. -/
def logEntry (x : String × String × String × Int × String) : TransactionLog :=
  { ID := "", Typ := x.1, From := x.2.1, To := x.2.2.1, Amount := x.2.2.2.1,
    Timestamp := 0, Status := x.2.2.2.2 }

/-- C7: the transaction log is bounded: after any sequence of appends
the retained log equals the most recent 1000 records of the full
appended sequence in original insertion order (FIFO eviction of the
oldest), and in particular it never holds more than 1000 records. -/
theorem log_bounded_fifo (d : MockDB)
    (xs : List (String × String × String × Int × String))
    (h : d.transactionLogs.length ≤ 1000) :
    (runLog d xs).transactionLogs
      = lastN 1000 (d.transactionLogs ++ xs.map logEntry) ∧
    (runLog d xs).transactionLogs.length ≤ 1000 := by
  induction xs generalizing d with
  | nil =>
    constructor
    · rw [runLog, List.map_nil, List.append_nil, lastN]
      have h0 : d.transactionLogs.length - 1000 = 0 := by omega
      rw [h0, List.drop_zero]
    · exact h
  | cons x rest ih =>
    obtain ⟨ty, f, t, a, st⟩ := x
    have hstep : (logTransaction d ty f t a st).transactionLogs
        = lastN 1000 (d.transactionLogs ++ [logEntry (ty, f, t, a, st)]) := by
      rw [logTransaction_transactionLogs, pushLog_eq_lastN]
      rfl
    have hlen : (logTransaction d ty f t a st).transactionLogs.length ≤ 1000 := by
      rw [hstep]
      apply length_lastN_le
    obtain ⟨ih1, ih2⟩ := ih (logTransaction d ty f t a st) hlen
    refine ⟨?_, ih2⟩
    rw [runLog, ih1, hstep, lastN_append, List.map_cons]
    rw [List.append_assoc, List.singleton_append]

/-- Witness for C7: one concrete append on the freshly initialized
(empty) log. -/
theorem log_bounded_fifo_witness :
    initialDB.transactionLogs.length ≤ 1000 ∧
    (runLog initialDB [("DEPOSIT", "", "aaron", 5, "SUCCESS")]).transactionLogs
      = lastN 1000 (initialDB.transactionLogs
          ++ [("DEPOSIT", "", "aaron", 5, "SUCCESS")].map logEntry) :=
  ⟨by decide,
   (log_bounded_fifo initialDB [("DEPOSIT", "", "aaron", 5, "SUCCESS")]
      (by decide)).1⟩

/-! ### System health -/

theorem AddUserCoins_operationCount (d : MockDB) (u : String) (a : Int) :
    (AddUserCoins d u a).1.operationCount = d.operationCount := by
  rw [AddUserCoins]
  split
  · rfl
  · split <;> rfl

theorem WithdrawUserCoins_operationCount (d : MockDB) (u : String) (a : Int) :
    (WithdrawUserCoins d u a).1.operationCount = d.operationCount := by
  rw [WithdrawUserCoins]
  split
  · rfl
  · split
    · rfl
    · split <;> rfl

theorem TransferUserCoinsWithContext_operationCount (d : MockDB) (c : Bool)
    (f t : String) (a : Int) :
    (TransferUserCoinsWithContext d c f t a).1.operationCount = d.operationCount := by
  rw [TransferUserCoinsWithContext]
  split
  · rfl
  · split
    · rfl
    · split
      · rfl
      · split
        · rfl
        · split
          · rfl
          · split <;> rfl

theorem applyOp_operationCount (d : MockDB) (op : Op) :
    (applyOp d op).operationCount = d.operationCount := by
  cases op with
  | deposit u a => exact AddUserCoins_operationCount d u a
  | withdraw u a => exact WithdrawUserCoins_operationCount d u a
  | transfer f t a =>
    show (TransferUserCoins d f t a).1.operationCount = _
    rw [TransferUserCoins_fst]
    exact TransferUserCoinsWithContext_operationCount d false f t a
  | transferCtx c f t a => exact TransferUserCoinsWithContext_operationCount d c f t a

theorem run_operationCount (d : MockDB) (ops : List Op) :
    (run d ops).operationCount = d.operationCount := by
  induction ops generalizing d with
  | nil => rfl
  | cons op ops ih => rw [run, ih, applyOp_operationCount]

/-- C8 counterexample: after one successful ledger operation on a
freshly initialized store, the snapshot's operation counter still reads
0, not 1 — no operation increments `operationCount`, so the counter does
not equal the number of ledger operations performed since
initialization. -/
theorem health_operation_count_counterexample :
    (AddUserCoins initialDB "aaron" 5).2.isSome = true ∧
    (GetSystemHealth (AddUserCoins initialDB "aaron" 5).1 3).operationCount = 0 ∧
    (GetSystemHealth (AddUserCoins initialDB "aaron" 5).1 3).operationCount ≠ 1 := by
  decide

/-- C8 amended: every call to `GetSystemHealth` returns a snapshot with
the fixed status `"healthy"`, the uptime since store initialization, the
component-name → liveness-flag mapping, and the stored
`operationCount` — a counter that starts at 0 at initialization and
that no ledger operation ever changes, so it reads 0 rather than the
number of operations performed. -/
theorem system_health_snapshot (d : MockDB) (now : Nat) :
    GetSystemHealth d now
      = { status := "healthy", uptimeSeconds := now - d.startTime,
          operationCount := d.operationCount, components := d.healthStatus,
          lastCheck := now, version := "1.0.0" } ∧
    (∀ s n, (SetupDatabase s n).operationCount = 0) ∧
    (∀ ops, (run d ops).operationCount = d.operationCount) :=
  ⟨rfl, fun _ _ => rfl, fun ops => run_operationCount d ops⟩

end GoApi
